import Mathlib

/-!
Verification of the temporal-integrity subsystem of the NIFTY-Price-Analysis
repository: the per-ticker price cache layer (`trend_analyzer/data_loader.py`,
`trend_analyzer/util.py`), the candidate-fallback resolver
(`trend_analyzer/run.py`), and the walk-forward logistic classifier
(`trend_analyzer/regime_model.py`).

Modelling conventions:
- dates are integers (days); pandas timestamps order-embed into `Int`;
- a price series (a pandas `Series` of closes indexed by date) is a
  `List (Int × Option Int)`; a `none` close is a NaN cell;
- a call that can raise a Python exception returns `Except`;
- the external provider response and the on-disk cache file content are
  explicit inputs, so filesystem and network effects become pure data flow.
-/

namespace TrendAnalyzer

/-- A date-indexed series of closes. A `none` value models a NaN cell. -/
abbrev PriceSeries := List (Int × Option Int)

/-! ## util.py -/

/-- Characters kept verbatim by `safe_filename` (util.py line 9): the regex
class `[A-Za-z0-9_-]`. -/
def isAllowedChar (c : Char) : Bool :=
  ('A' ≤ c && c ≤ 'Z') || ('a' ≤ c && c ≤ 'z') || ('0' ≤ c && c ≤ '9') ||
    c = '_' || c = '-'

/-- ASCII whitespace stripped by Python `str.strip()` (the configured tickers
are ASCII strings). -/
def isPyWhitespace (c : Char) : Bool :=
  c = ' ' || c = '\t' || c = '\n' || c = '\r' || c = '\x0b' || c = '\x0c'

/-- Python `name.strip()` on the character list. -/
def pyStrip (cs : List Char) : List Char :=
  ((cs.dropWhile isPyWhitespace).reverse.dropWhile isPyWhitespace).reverse

/-- Python `re.sub(r"[^A-Za-z0-9_-]+", "_", ·)`: each maximal run of
disallowed characters collapses to one underscore. The flag records whether
the previous character was part of a disallowed run. -/
def subDisallowed : Bool → List Char → List Char
  | _, [] => []
  | prevBad, c :: rest =>
      if isAllowedChar c then c :: subDisallowed false rest
      else if prevBad then subDisallowed true rest
      else '_' :: subDisallowed true rest

/-- util.py lines 7-10: strip, collapse disallowed runs to `_`, and fall back
to the name "file" when everything was stripped away. -/
def safe_filename (name : String) : String :=
  let s := String.mk (subDisallowed false (pyStrip name.data))
  if s = "" then "file" else s

/-- data_loader.py lines 64-65: the cache file path for a ticker is
`cache_dir / (safe_filename ticker ++ ".csv")`. -/
def cache_path (cacheDir : String) (ticker : String) : String :=
  cacheDir ++ "/" ++ safe_filename ticker ++ ".csv"

/-! ## data_loader.py -/

/-- The content of a ticker's cache file: either a parseable (Date, Close)
table or a malformed record on which `pd.read_csv(...)` / column access
raises. -/
inductive CacheFile
  | good (s : PriceSeries)
  | malformed
deriving DecidableEq

/-- Exceptions escaping the loader: `RuntimeError("No data returned from data
source.")` from the download, or the parse error raised while reading a
malformed cache file. -/
inductive LoadError
  | noData
  | malformedCache
deriving DecidableEq

/-- What one call of `load_or_download_series` produces: the returned series,
the cache file content after the call, and whether the network fetch ran. -/
structure LoadOutcome where
  series : PriceSeries
  newCache : Option CacheFile
  fetched : Bool
deriving DecidableEq

/-- Stable insertion into a date-sorted series, keeping an earlier row first
among equal dates. -/
def insertByDate (p : Int × Option Int) : PriceSeries → PriceSeries
  | [] => [p]
  | q :: rest => if p.1 ≤ q.1 then p :: q :: rest else q :: insertByDate p rest

/-- `sort_index()` on a series: stable sort by date. -/
def sortByDate : PriceSeries → PriceSeries
  | [] => []
  | p :: rest => insertByDate p (sortByDate rest)

/-- `dropna()` on a single-column frame or series: drop the NaN rows. -/
def dropna (s : PriceSeries) : PriceSeries := s.filter (fun p => p.2.isSome)

/-- data_loader.py lines 31-61, `download_daily_adj_close`: the raw provider
response is an input (`none` models "df is None or df.empty"). A non-empty
response is sorted by date and its NaN rows dropped (`dropna(how="all")` on
the single Close column); an empty response raises `RuntimeError`. -/
def download_daily_adj_close (raw : Option PriceSeries) : Except LoadError PriceSeries :=
  match raw with
  | none => .error .noData
  | some rows =>
      if rows.isEmpty then .error .noData
      else .ok (dropna (sortByDate rows))

/-- data_loader.py lines 93-96: the step that combines the cached history with
the fetched frame before writing. The code writes the fetched series as-is
(`out = s.to_frame(); out.to_csv(p)`); the existing cache content is not
consulted, so the result is exactly `incoming`. -/
def merge_and_write (existing : Option PriceSeries) (incoming : PriceSeries) : PriceSeries :=
  let _ := existing
  incoming

/-- The series currently stored in a cache file, when it parses. -/
def cacheSeries : Option CacheFile → Option PriceSeries
  | some (.good s) => some s
  | _ => none

/-- data_loader.py lines 68-97, `load_or_download_series`.

State and effects are explicit: `cacheFile` is the current content of
`cache_path cache_dir ticker` (`none` when the file does not exist), `raw` is
the provider's response for the requested `[start, end]` window. The code:
if the cache file exists and `refresh` is false, read it, sort, and return it
(raising on a malformed file) — `start` and `end` are not consulted on this
branch; otherwise download the window, write the result wholesale over the
cache file, and return it. -/
def load_or_download_series (cacheFile : Option CacheFile)
    (start end_ : Option Int) (refresh : Bool) (raw : Option PriceSeries) :
    Except LoadError LoadOutcome :=
  let _ := start
  let _ := end_
  match cacheFile, refresh with
  | some (.good s), false => .ok ⟨sortByDate s, cacheFile, false⟩
  | some .malformed, false => .error .malformedCache
  | _, _ =>
      match download_daily_adj_close raw with
      | .error e => .error e
      | .ok close =>
          let out := merge_and_write (cacheSeries cacheFile) close
          .ok ⟨out, some (.good out), true⟩

/-! ## run.py, candidate fallback -/

/-- run.py lines 42-55, the `for t in candidates` loop of
`_try_load_candidates`: per candidate, call the loader; on an exception move
on; on a series that is non-empty after `dropna()` stop and return it. The
second component records the candidates attempted, in order. -/
def tryCandidatesLoop (loader : String → Except Unit PriceSeries) :
    List String → Option PriceSeries × List String
  | [] => (none, [])
  | t :: rest =>
      match loader t with
      | .error _ =>
          let r := tryCandidatesLoop loader rest
          (r.1, t :: r.2)
      | .ok s =>
          if (dropna s).isEmpty then
            let r := tryCandidatesLoop loader rest
            (r.1, t :: r.2)
          else (some s, [t])

/-- run.py lines 27-59, `_try_load_candidates`: empty candidate list raises
when required, else yields `none`; otherwise the fallback loop runs, and when
every candidate fails the call raises when required, else yields `none` with
a warning. The attempted-candidates trace is returned alongside. -/
def tryLoadCandidates (loader : String → Except Unit PriceSeries)
    (candidates : List String) (required : Bool) :
    Except Unit (Option PriceSeries × List String) :=
  if candidates.isEmpty then
    if required then .error () else .ok (none, [])
  else
    match tryCandidatesLoop loader candidates with
    | (some s, attempted) => .ok (some s, attempted)
    | (none, attempted) =>
        if required then .error () else .ok (none, attempted)

/-! ## regime_model.py -/

/-- Minimum of a list of dates (pandas `DatetimeIndex.min()`), on the
non-empty lists the code applies it to. -/
def listMin : List Int → Int
  | [] => 0
  | a :: rest => rest.foldl min a

/-- Maximum of a list of dates (`idx.max()`). -/
def listMax : List Int → Int
  | [] => 0
  | a :: rest => rest.foldl max a

/-- regime_model.py lines 63-67, `has_min_history`: a non-empty training index
whose earliest date is at least `int(min_train_years * 365.25)` days before
the boundary. -/
def has_min_history (trainIndex : List Int) (trainEnd : Int) (minTrainYears : Int) : Bool :=
  match trainIndex with
  | [] => false
  | _ => decide (listMin trainIndex ≤ trainEnd - minTrainYears * 36525 / 100)

/-- regime_model.py line 76: the training rows for a boundary are the index
dates at or before the boundary whose label is known (`y.notna()`). -/
def trainFilter (idx : List Int) (y : Int → Option Bool) (trainEnd : Int) : List Int :=
  idx.filter (fun d => decide (d ≤ trainEnd) && (y d).isSome)

/-- The integer-cast training labels (`y_train`) for a boundary. -/
def yTrainOf (idx : List Int) (y : Int → Option Bool) (trainEnd : Int) : List Bool :=
  (trainFilter idx y trainEnd).map (fun d => (y d).getD false)

/-- regime_model.py line 71: the upper end of a boundary's predict window is
the next retrain date, or `idx.max()` for the last boundary. -/
def nextBoundary (idx : List Int) (post : List Int) : Int :=
  match post with
  | [] => listMax idx
  | r :: _ => r

/-- regime_model.py lines 69-92, the retrain loop of
`walkforward_logistic_probabilities`, one recursive step per remaining
boundary. `fit` abstracts `model.fit` on the (features, label) training pairs
followed by `predict_proba` (the fitted sklearn pipeline becomes a function
from features to the positive-class probability); it returns `Except` because
`model.fit` may raise, and the Python loop has no handler around it. The trace
accumulates, per performed fit, the boundary and the training dates used. -/
def wfLoop {A B : Type} (idx : List Int) (x : Int → A) (y : Int → Option Bool)
    (minTrainYears : Int) (fit : List (A × Bool) → Except Unit (A → B)) :
    List Int → List (Int × Option B) → List (Int × List Int) →
    Except Unit (List (Int × Option B) × List (Int × List Int))
  | [], probs, trace => .ok (probs, trace)
  | trainEnd :: rest, probs, trace =>
      let nextEnd := nextBoundary idx rest
      let predictDates := idx.filter (fun d => decide (trainEnd < d) && decide (d ≤ nextEnd))
      if predictDates.isEmpty then wfLoop idx x y minTrainYears fit rest probs trace
      else
        let trainDates := trainFilter idx y trainEnd
        if !has_min_history trainDates trainEnd minTrainYears then
          wfLoop idx x y minTrainYears fit rest probs trace
        else
          let yTrain := yTrainOf idx y trainEnd
          if !(yTrain.contains true && yTrain.contains false) then
            wfLoop idx x y minTrainYears fit rest probs trace
          else
            match fit (trainDates.map (fun d => (x d, (y d).getD false))) with
            | .error e => .error e
            | .ok model =>
                let probs2 := probs.map (fun dp =>
                  if decide (trainEnd < dp.1) && decide (dp.1 ≤ nextEnd) then
                    (dp.1, some (model (x dp.1)))
                  else dp)
                wfLoop idx x y minTrainYears fit rest probs2 (trace ++ [(trainEnd, trainDates)])

/-- regime_model.py lines 23-96, `walkforward_logistic_probabilities`. The
retrain boundaries (`X.resample(cfg.retrain_frequency).last().index`, a
strictly ascending pandas DatetimeIndex) are an explicit input. The output
timeline starts all-missing over the feature index and each performed fit
fills its predict window; with no boundaries the all-missing timeline is
returned at once. -/
def walkforward_logistic_probabilities {A B : Type} (idx : List Int) (x : Int → A)
    (y : Int → Option Bool) (minTrainYears : Int) (retrainDates : List Int)
    (fit : List (A × Bool) → Except Unit (A → B)) :
    Except Unit (List (Int × Option B) × List (Int × List Int)) :=
  let probs := idx.map (fun d => (d, (none : Option B)))
  if retrainDates.isEmpty then .ok (probs, [])
  else wfLoop idx x y minTrainYears fit retrainDates probs []

/-- Decidable equality for `Except`, so concrete loader outcomes can be
compared by `decide`. -/
instance {ε α : Type _} [DecidableEq ε] [DecidableEq α] : DecidableEq (Except ε α) := by
  intro a b
  cases a <;> cases b
  case error.error e e' =>
    exact if h : e = e' then .isTrue (congrArg Except.error h)
      else .isFalse (fun hc => h (Except.error.inj hc))
  case error.ok e v => exact .isFalse (fun hc => Except.noConfusion hc)
  case ok.error v e => exact .isFalse (fun hc => Except.noConfusion hc)
  case ok.ok v v' =>
    exact if h : v = v' then .isTrue (congrArg Except.ok h)
      else .isFalse (fun hc => h (Except.ok.inj hc))

/-- A candidate on which the resolver loop moves on: its loader raises, or the
loaded series is empty once NaN rows are dropped (run.py lines 43-55). -/
def candidateFails (loader : String → Except Unit PriceSeries) (t : String) : Bool :=
  match loader t with
  | .error _ => true
  | .ok s => (dropna s).isEmpty

/-- Loader fixture for the fallback scenario: the candidate "BAD" raises,
every other candidate loads a one-row series. -/
def exLoader : String → Except Unit PriceSeries := fun t =>
  if t = "BAD" then .error () else .ok [(0, some 1)]

/-- The combination of retrain-loop guards under which a boundary performs no
fit (regime_model.py lines 78-86): the minimum-history gate fails, or the
training labels do not contain both classes. -/
def skipGuard (idx : List Int) (y : Int → Option Bool) (minTrainYears : Int) (b : Int) : Bool :=
  !has_min_history (trainFilter idx y b) b minTrainYears ||
    !((yTrainOf idx y b).contains true && (yTrainOf idx y b).contains false)

/-- Label fixture: dates 0 and 400 carry the two classes, later labels are
still unknown. -/
def exY : Int → Option Bool := fun d =>
  if d = 0 then some true else if d = 400 then some false else none

/-- Label fixture with a single class: every label known by date 400 is 1. -/
def exAllOne : Int → Option Bool := fun d =>
  if d ≤ 400 then some true else none

/-- Fit fixture standing for a successful `model.fit` and `predict_proba`
pair: every fit succeeds and predicts the constant value 1. -/
def exFit : List (Int × Bool) → Except Unit (Int → Int) := fun _ => .ok (fun _ => 1)

/-- Fit fixture standing for a `model.fit` call that raises (e.g. a numerical
failure inside the solver). -/
def exFitFail : List (Int × Bool) → Except Unit (Int → Int) := fun _ => .error ()

/-- On the fetch path (`refresh` true) the call reduces to downloading and
writing, whatever the prior cache content was (data_loader.py lines 92-97). -/
theorem load_refresh_eq (cache : Option CacheFile) (start end_ : Option Int)
    (raw : Option PriceSeries) :
    load_or_download_series cache start end_ true raw =
      match download_daily_adj_close raw with
      | .error e => .error e
      | .ok close => .ok ⟨close, some (.good close), true⟩ := by
  cases cache with
  | none => rfl
  | some f => cases f <;> rfl

/-- Every entry of the fit trace produced by the retrain loop either was
already in the accumulator or records a boundary together with exactly its
label-known, at-or-before-boundary training dates, with the minimum-history
gate satisfied. -/
theorem wfLoop_trace_spec {A B : Type} (idx : List Int) (x : Int → A)
    (y : Int → Option Bool) (m : Int) (fit : List (A × Bool) → Except Unit (A → B)) :
    ∀ (bs : List Int) (probs : List (Int × Option B)) (trace : List (Int × List Int))
      (res : List (Int × Option B) × List (Int × List Int)),
      wfLoop idx x y m fit bs probs trace = .ok res →
      ∀ p ∈ res.2, p ∈ trace ∨
        (p.2 = trainFilter idx y p.1 ∧ has_min_history p.2 p.1 m = true) := by
  intro bs
  induction bs with
  | nil =>
      intro probs trace res h p hp
      simp only [wfLoop] at h
      cases h
      exact .inl hp
  | cons b rest ih =>
      intro probs trace res h p hp
      simp only [wfLoop] at h
      split at h
      · exact ih _ _ _ h p hp
      · split at h
        · exact ih _ _ _ h p hp
        · rename_i hm
          split at h
          · exact ih _ _ _ h p hp
          · split at h
            · cases h
            · rcases ih _ _ _ h p hp with hin | hprop
              · rcases List.mem_append.mp hin with hin' | hin''
                · exact .inl hin'
                · have hpe : p = (b, trainFilter idx y b) := by simpa using hin''
                  subst hpe
                  refine .inr ⟨rfl, ?_⟩
                  simpa using hm
              · exact .inr hprop

/-- The retrain loop never writes a probability at a date that is at or before
every remaining boundary: such a date lies in no predict window. -/
theorem wfLoop_entry_none_of_le {A B : Type} (idx : List Int) (x : Int → A)
    (y : Int → Option Bool) (m : Int) (fit : List (A × Bool) → Except Unit (A → B)) :
    ∀ (bs : List Int) (probs : List (Int × Option B)) (trace : List (Int × List Int))
      (res : List (Int × Option B) × List (Int × List Int)) (d : Int),
      (∀ b ∈ bs, d ≤ b) →
      wfLoop idx x y m fit bs probs trace = .ok res →
      (∀ p ∈ probs, p.1 = d → p.2 = none) →
      ∀ p ∈ res.1, p.1 = d → p.2 = none := by
  intro bs
  induction bs with
  | nil =>
      intro probs trace res d _ h hinv
      simp only [wfLoop] at h
      cases h
      exact hinv
  | cons b rest ih =>
      intro probs trace res d hle h hinv
      have hdb : d ≤ b := hle b (List.mem_cons_self b rest)
      have hle' : ∀ e ∈ rest, d ≤ e := fun e he => hle e (List.mem_cons_of_mem b he)
      simp only [wfLoop] at h
      split at h
      · exact ih _ _ _ _ hle' h hinv
      · split at h
        · exact ih _ _ _ _ hle' h hinv
        · split at h
          · exact ih _ _ _ _ hle' h hinv
          · split at h
            · cases h
            · refine ih _ _ _ _ hle' h ?_
              intro p hp hpd
              rw [List.mem_map] at hp
              obtain ⟨dp, hdp, hfp⟩ := hp
              split at hfp
              · rename_i hc
                exfalso
                subst hfp
                have h1 : b < dp.1 := by
                  have hc' : b < dp.1 ∧ dp.1 ≤ nextBoundary idx rest := by simpa using hc
                  exact hc'.1
                rw [hpd] at h1
                omega
              · subst hfp
                exact hinv dp hdp hpd

/-- If a boundary `b` in the (strictly ascending) retrain-date list skips — its
guard combination holds — then every date strictly after `b` and at most `b`'s
predict-window end keeps a missing probability: earlier boundaries' windows
end at or before `b`, `b` itself writes nothing, and later boundaries'
windows start after `b`'s window ends. -/
theorem wfLoop_skip_entry_none {A B : Type} (idx : List Int) (x : Int → A)
    (y : Int → Option Bool) (m : Int) (fit : List (A × Bool) → Except Unit (A → B)) :
    ∀ (pre : List Int) (b : Int) (post : List Int) (probs : List (Int × Option B))
      (trace : List (Int × List Int)) (res : List (Int × Option B) × List (Int × List Int))
      (d : Int),
      List.Pairwise (· < ·) (pre ++ b :: post) →
      b < d →
      skipGuard idx y m b = true →
      d ≤ nextBoundary idx post →
      wfLoop idx x y m fit (pre ++ b :: post) probs trace = .ok res →
      (∀ p ∈ probs, p.1 = d → p.2 = none) →
      ∀ p ∈ res.1, p.1 = d → p.2 = none := by
  intro pre
  induction pre with
  | nil =>
      intro b post probs trace res d hsort hbd hskip hdnext h hinv
      have hpost : ∀ e ∈ post, d ≤ e := by
        intro e he
        cases post with
        | nil => cases he
        | cons r post' =>
            have hr : d ≤ r := by simpa [nextBoundary] using hdnext
            rcases List.mem_cons.mp he with rfl | he'
            · exact hr
            · have hre : r < e := (List.pairwise_cons.mp (List.pairwise_cons.mp hsort).2).1 e he'
              omega
      simp only [List.nil_append, wfLoop] at h
      split at h
      · exact wfLoop_entry_none_of_le idx x y m fit post _ _ _ d hpost h hinv
      · split at h
        · exact wfLoop_entry_none_of_le idx x y m fit post _ _ _ d hpost h hinv
        · rename_i hm
          split at h
          · exact wfLoop_entry_none_of_le idx x y m fit post _ _ _ d hpost h hinv
          · rename_i hcl
            exfalso
            have hm' : has_min_history (trainFilter idx y b) b m = true := by
              simpa using hm
            have hcl' : ((yTrainOf idx y b).contains true &&
                (yTrainOf idx y b).contains false) = true := by
              simpa using hcl
            rw [skipGuard, hm', hcl'] at hskip
            simp at hskip
  | cons u pre' ih =>
      intro b post probs trace res d hsort hbd hskip hdnext h hinv
      have hsort' : List.Pairwise (· < ·) (pre' ++ b :: post) :=
        (List.pairwise_cons.mp hsort).2
      have hnext_le : nextBoundary idx (pre' ++ b :: post) ≤ b := by
        cases pre' with
        | nil => simp [nextBoundary]
        | cons v pre'' =>
            simp only [List.cons_append, nextBoundary]
            exact ((List.pairwise_cons.mp hsort').1 b (by simp)).le
      simp only [List.cons_append, wfLoop] at h
      split at h
      · exact ih b post _ _ _ d hsort' hbd hskip hdnext h hinv
      · split at h
        · exact ih b post _ _ _ d hsort' hbd hskip hdnext h hinv
        · split at h
          · exact ih b post _ _ _ d hsort' hbd hskip hdnext h hinv
          · split at h
            · cases h
            · refine ih b post _ _ _ d hsort' hbd hskip hdnext h ?_
              intro p hp hpd
              rw [List.mem_map] at hp
              obtain ⟨dp, hdp, hfp⟩ := hp
              split at hfp
              · rename_i hc
                exfalso
                subst hfp
                have h2 : dp.1 ≤ nextBoundary idx (pre' ++ b :: post) := by
                  have hc' : u < dp.1 ∧ dp.1 ≤ nextBoundary idx (pre' ++ b :: post) := by
                    simpa using hc
                  exact hc'.2
                rw [hpd] at h2
                omega
              · subst hfp
                exact hinv dp hdp hpd

/-- With a fit that always raises, the retrain loop either propagates the
error or never reaches a fit at all, leaving its accumulators untouched. -/
theorem wfLoop_fit_error {A B : Type} (idx : List Int) (x : Int → A)
    (y : Int → Option Bool) (m : Int) :
    ∀ (bs : List Int) (probs : List (Int × Option B)) (trace : List (Int × List Int)),
      wfLoop idx x y m (fun _ => (.error () : Except Unit (A → B))) bs probs trace =
          .error () ∨
        wfLoop idx x y m (fun _ => (.error () : Except Unit (A → B))) bs probs trace =
          .ok (probs, trace) := by
  intro bs
  induction bs with
  | nil => intro probs trace; exact .inr rfl
  | cons b rest ih =>
      intro probs trace
      simp only [wfLoop]
      split
      · exact ih _ _
      · split
        · exact ih _ _
        · split
          · exact ih _ _
          · exact .inl rfl

end TrendAnalyzer

namespace TrendAnalyzer

/-- C1: the claim says the fetch is skipped only when the cached series covers
the requested window (last cached date at or past the effective end date).
The code skips the fetch whenever the cache file exists and `refresh` is
false: here the cache ends at date 23, the caller bounds the window at end
date 30, the provider has rows up to 26, and yet the call returns the stale
4-row cache with no fetch. -/
theorem c1_cache_skip_ignores_requested_end :
    load_or_download_series
        (some (.good [(20, some 100), (21, some 101), (22, some 102), (23, some 103)]))
        (some 0) (some 30) false
        (some [(24, some 104), (25, some 105), (26, some 106)]) =
      .ok ⟨[(20, some 100), (21, some 101), (22, some 102), (23, some 103)],
        some (.good [(20, some 100), (21, some 101), (22, some 102), (23, some 103)]),
        false⟩ := by
  decide

/-- C2: the claim says the merge-and-write step stores the union of the cached
and fetched series (7 rows in the concrete scenario, value 103 kept at date
23). The code writes the fetched frame wholesale: with the 4-row cache
(dates 20-23) and a 3-row fetch (dates 24-26, reached with `refresh` set,
since with a cache present and `refresh` false no fetch runs at all — see C1),
the stored and returned series is exactly the 3 fetched rows and the cached
history is discarded. -/
theorem c2_write_discards_cached_history :
    load_or_download_series
        (some (.good [(20, some 100), (21, some 101), (22, some 102), (23, some 103)]))
        (some 20) (some 26) true
        (some [(24, some 104), (25, some 105), (26, some 106)]) =
      .ok ⟨[(24, some 104), (25, some 105), (26, some 106)],
        some (.good [(24, some 104), (25, some 105), (26, some 106)]),
        true⟩ := by
  decide

/-- C5: a cache file that exists but fails to parse makes the load for that
ticker fail with the parse error: the code never falls through to the fetch
branch, so a malformed cache is never treated as absent. -/
theorem c5_malformed_cache_is_fatal (start end_ : Option Int) (raw : Option PriceSeries) :
    load_or_download_series (some .malformed) start end_ false raw =
      .error .malformedCache := by
  rfl

/-- C10: ticker-to-cache-path sanitization is not injective: "ABC.NS" and
"ABC_NS" are distinct tickers mapped to the same filename, hence to the same
cache path under every cache directory. -/
theorem c10_cache_path_not_injective :
    safe_filename "ABC.NS" = safe_filename "ABC_NS" ∧
      ("ABC.NS" : String) ≠ "ABC_NS" ∧
      ∀ dir : String, cache_path dir "ABC.NS" = cache_path dir "ABC_NS" := by
  have h : safe_filename "ABC.NS" = safe_filename "ABC_NS" := by decide
  exact ⟨h, by decide, fun dir => by simp only [cache_path, h]⟩

/-- C8: the store step is idempotent. The code's write step stores the
incoming series wholesale, so applying it again with the same incoming
changes nothing; at the call level, re-running the fetch-and-write path
(`refresh` true) against the record stored by a first run reproduces the same
outcome and the same stored record. -/
theorem c8_merge_write_idempotent :
    (∀ (A : Option PriceSeries) (B : PriceSeries),
        merge_and_write (some (merge_and_write A B)) B = merge_and_write A B) ∧
      ∀ (cache : Option CacheFile) (start end_ : Option Int) (raw : Option PriceSeries)
        (o : LoadOutcome),
        load_or_download_series cache start end_ true raw = .ok o →
        load_or_download_series o.newCache start end_ true raw = .ok o := by
  constructor
  · intro A B
    rfl
  · intro cache start end_ raw o h
    rw [load_refresh_eq] at h ⊢
    cases hd : download_daily_adj_close raw with
    | error e => rw [hd] at h; simp at h
    | ok close => rw [hd] at h; exact h

/-- C8 witness: a first fetch-and-write against a one-row cache stores the
fetched row, and re-running against the stored record yields the identical
outcome. -/
theorem c8_merge_write_idempotent_witness :
    load_or_download_series (some (.good [(1, some 5)])) none none true
        (some [(2, some 6)]) =
      .ok ⟨[(2, some 6)], some (.good [(2, some 6)]), true⟩ ∧
    load_or_download_series (some (.good [(2, some 6)])) none none true
        (some [(2, some 6)]) =
      .ok ⟨[(2, some 6)], some (.good [(2, some 6)]), true⟩ :=
  ⟨by decide,
    c8_merge_write_idempotent.2 (some (.good [(1, some 5)])) none none
      (some [(2, some 6)]) ⟨[(2, some 6)], some (.good [(2, some 6)]), true⟩ (by decide)⟩

/-- C7: the resolver tries candidates in list order; every earlier candidate
that raises or loads an empty-after-dropna series is passed over, and the
first candidate that loads a non-empty series is returned, with the attempt
trace being exactly the candidates up to and including it (each attempted
once, in order). -/
theorem c7_fallback_first_success
    (loader : String → Except Unit PriceSeries) (pre rest : List String)
    (t : String) (s : PriceSeries) (required : Bool)
    (hpre : ∀ u ∈ pre, candidateFails loader u = true)
    (ht : loader t = .ok s) (hs : (dropna s).isEmpty = false) :
    tryLoadCandidates loader (pre ++ t :: rest) required =
      .ok (some s, pre ++ [t]) := by
  have hloop : ∀ pr : List String, (∀ u ∈ pr, candidateFails loader u = true) →
      tryCandidatesLoop loader (pr ++ t :: rest) = (some s, pr ++ [t]) := by
    intro pr
    induction pr with
    | nil =>
        intro _
        simp only [List.nil_append, tryCandidatesLoop, ht, hs]
        simp
    | cons u pr ih =>
        intro h
        have hu : candidateFails loader u = true := h u (List.mem_cons_self u pr)
        have hrest : ∀ v ∈ pr, candidateFails loader v = true :=
          fun v hv => h v (List.mem_cons_of_mem u hv)
        unfold candidateFails at hu
        simp only [List.cons_append, tryCandidatesLoop]
        cases hl : loader u with
        | error e => simp [hl, ih hrest]
        | ok s' =>
            have hu' : (dropna s').isEmpty = true := by rw [hl] at hu; exact hu
            have hnil : dropna s' = [] := by
              cases hds : dropna s' with
              | nil => rfl
              | cons a l => rw [hds] at hu'; cases hu'
            simp [hl, hnil, ih hrest]
  have hne : (pre ++ t :: rest).isEmpty = false := by
    cases pre <;> simp [List.isEmpty]
  simp only [tryLoadCandidates, hne, hloop pre hpre]
  simp

/-- C3: point-in-time training. Whenever the walk-forward run completes,
every fit it performed used only rows dated at or before that fit's boundary
whose label was known (non-missing). -/
theorem c3_training_is_point_in_time {A B : Type} (idx : List Int) (x : Int → A)
    (y : Int → Option Bool) (m : Int) (retrainDates : List Int)
    (fit : List (A × Bool) → Except Unit (A → B))
    (res : List (Int × Option B) × List (Int × List Int))
    (h : walkforward_logistic_probabilities idx x y m retrainDates fit = .ok res)
    (b : Int) (tds : List Int) (hmem : (b, tds) ∈ res.2) :
    ∀ d ∈ tds, d ≤ b ∧ (y d).isSome = true := by
  intro d hd
  simp only [walkforward_logistic_probabilities] at h
  split at h
  · cases h
    simp at hmem
  · rcases wfLoop_trace_spec idx x y m fit retrainDates _ _ _ h (b, tds) hmem with
      hin | ⟨hfil, _⟩
    · exact absurd hin (List.not_mem_nil _)
    · have hd' : d ∈ trainFilter idx y b := by
        simpa [← hfil] using hd
      have hcond := (List.mem_filter.mp hd').2
      have hcond' : d ≤ b ∧ (y d).isSome = true := by simpa using hcond
      exact hcond'

/-- C3 witness: in a concrete completed run whose only fit happened at
boundary 400 with training dates 0 and 400, the training row at date 0 is at
or before the boundary and carries a known label. -/
theorem c3_training_is_point_in_time_witness :
    walkforward_logistic_probabilities [0, 400, 800] (fun d => d) exY 1 [400, 800] exFit =
        .ok ([(0, none), (400, none), (800, some 1)], [(400, [0, 400])]) ∧
      ((0 : Int) ≤ 400 ∧ (exY 0).isSome = true) :=
  ⟨by decide,
    c3_training_is_point_in_time [0, 400, 800] (fun d => d) exY 1 [400, 800] exFit
      ([(0, none), (400, none), (800, some 1)], [(400, [0, 400])]) (by decide)
      400 [0, 400] (by decide) 0 (by decide)⟩

/-- C4 counterexample: the claim says a boundary whose fit raises is treated
as a gated skip while the remaining boundaries keep producing probabilities.
On the same concrete input (dates 0, 400, 500, 600; boundaries 400 and 500),
a succeeding fit fills both predict windows, but a fit that raises at the
first boundary makes the whole walk-forward call propagate the error: no
timeline is produced at all, so nothing is computed for the second boundary
either. -/
theorem c4_fit_error_counterexample :
    walkforward_logistic_probabilities [0, 400, 500, 600] (fun d => d) exY 1 [400, 500]
        exFitFail = .error () ∧
      walkforward_logistic_probabilities [0, 400, 500, 600] (fun d => d) exY 1 [400, 500]
          exFit =
        .ok ([(0, none), (400, none), (500, some 1), (600, some 1)],
          [(400, [0, 400]), (500, [0, 400])]) := by
  constructor
  · decide
  · decide

/-- C4 (amended): a fit failure is not a gated skip. With a fit that raises,
the walk-forward computation either propagates the error — aborting with no
timeline — or never performed any fit, returning the untouched all-missing
timeline with an empty fit trace; it never returns a partially filled
timeline. -/
theorem c4_fit_error_propagates :
    ∀ (A B : Type) (idx : List Int) (x : Int → A) (y : Int → Option Bool) (m : Int)
      (retrainDates : List Int),
      walkforward_logistic_probabilities idx x y m retrainDates
          (fun _ => (.error () : Except Unit (A → B))) = .error () ∨
        walkforward_logistic_probabilities idx x y m retrainDates
            (fun _ => (.error () : Except Unit (A → B))) =
          .ok (idx.map (fun d => (d, none)), []) := by
  intro A B idx x y m retrainDates
  simp only [walkforward_logistic_probabilities]
  split
  · exact .inr rfl
  · exact wfLoop_fit_error idx x y m retrainDates _ _

/-- C6: class-balance gate. If the training labels at a boundary of the
(strictly ascending) retrain-date list miss one of the two classes, no fit
happens there and every date in that boundary's predict window keeps a
missing probability in the completed output timeline. -/
theorem c6_single_class_window_missing {A B : Type} (idx : List Int) (x : Int → A)
    (y : Int → Option Bool) (m : Int) (fit : List (A × Bool) → Except Unit (A → B))
    (pre post : List Int) (b d : Int)
    (res : List (Int × Option B) × List (Int × List Int))
    (hsort : List.Pairwise (· < ·) (pre ++ b :: post))
    (hclass : (yTrainOf idx y b).contains true = false ∨
      (yTrainOf idx y b).contains false = false)
    (hbd : b < d) (hdnext : d ≤ nextBoundary idx post)
    (h : walkforward_logistic_probabilities idx x y m (pre ++ b :: post) fit = .ok res) :
    ∀ p ∈ res.1, p.1 = d → p.2 = none := by
  have hskip : skipGuard idx y m b = true := by
    have hand : ((yTrainOf idx y b).contains true &&
        (yTrainOf idx y b).contains false) = false := by
      rcases hclass with hc | hc
      · rw [hc]
        exact Bool.false_and _
      · rw [hc]
        exact Bool.and_false _
    rw [skipGuard, hand]
    simp
  simp only [walkforward_logistic_probabilities] at h
  split at h
  · rename_i hemp
    exfalso
    cases pre <;> simp at hemp
  · refine wfLoop_skip_entry_none idx x y m fit pre b post _ _ res d hsort hbd hskip
      hdnext h ?_
    intro p hp _
    rw [List.mem_map] at hp
    obtain ⟨d', _, rfl⟩ := hp
    rfl

/-- C6 witness: with labels that are all 1 (dates 0 and 400 labelled true,
nothing else known) the boundary 400 trains on a single class; in the
completed concrete run the predict-window date 800 has a missing
probability. -/
theorem c6_single_class_window_missing_witness :
    (yTrainOf [0, 400, 800] exAllOne 400).contains false = false ∧
      walkforward_logistic_probabilities [0, 400, 800] (fun d => d) exAllOne 1 [400, 800]
          exFit = .ok ([(0, none), (400, none), (800, none)], []) ∧
      ((800 : Int), (none : Option Int)).2 = none :=
  ⟨by decide, by decide,
    c6_single_class_window_missing [0, 400, 800] (fun d => d) exAllOne 1 exFit
      [] [800] 400 800 ([(0, none), (400, none), (800, none)], [])
      (by decide) (.inr (by decide)) (by decide) (by decide) (by decide)
      (800, none) (by decide) rfl⟩

/-- C9: minimum-history gate. First, every fit the walk-forward run performs
is at a boundary whose training dates are non-empty and whose earliest
training date is at least `int(min_train_years * 365.25)` days before the
boundary. Second, a boundary of the (strictly ascending) retrain-date list
that fails the gate performs no fit, and every date of its predict window
keeps a missing probability in the completed output timeline. -/
theorem c9_min_history_gate :
    (∀ (A B : Type) (idx : List Int) (x : Int → A) (y : Int → Option Bool) (m : Int)
        (retrainDates : List Int) (fit : List (A × Bool) → Except Unit (A → B))
        (res : List (Int × Option B) × List (Int × List Int)) (b : Int) (tds : List Int),
        walkforward_logistic_probabilities idx x y m retrainDates fit = .ok res →
        (b, tds) ∈ res.2 →
        tds ≠ [] ∧ listMin tds ≤ b - m * 36525 / 100) ∧
      ∀ (A B : Type) (idx : List Int) (x : Int → A) (y : Int → Option Bool) (m : Int)
        (fit : List (A × Bool) → Except Unit (A → B)) (pre post : List Int) (b d : Int)
        (res : List (Int × Option B) × List (Int × List Int)),
        List.Pairwise (· < ·) (pre ++ b :: post) →
        has_min_history (trainFilter idx y b) b m = false →
        b < d → d ≤ nextBoundary idx post →
        walkforward_logistic_probabilities idx x y m (pre ++ b :: post) fit = .ok res →
        ∀ p ∈ res.1, p.1 = d → p.2 = none := by
  constructor
  · intro A B idx x y m retrainDates fit res b tds h hmem
    simp only [walkforward_logistic_probabilities] at h
    split at h
    · cases h
      simp at hmem
    · rcases wfLoop_trace_spec idx x y m fit retrainDates _ _ _ h (b, tds) hmem with
        hin | ⟨_, hgate⟩
      · exact absurd hin (List.not_mem_nil _)
      · cases htds : tds with
        | nil => rw [htds] at hgate; simp [has_min_history] at hgate
        | cons a l =>
            rw [htds] at hgate
            have : listMin (a :: l) ≤ b - m * 36525 / 100 := by
              simpa [has_min_history] using hgate
            exact ⟨by simp, htds ▸ this⟩
  · intro A B idx x y m fit pre post b d res hsort hgate hbd hdnext h
    have hskip : skipGuard idx y m b = true := by
      simp [skipGuard, hgate]
    simp only [walkforward_logistic_probabilities] at h
    split at h
    · rename_i hemp
      exfalso
      cases pre <;> simp at hemp
    · refine wfLoop_skip_entry_none idx x y m fit pre b post _ _ res d hsort hbd hskip
        hdnext h ?_
      intro p hp _
      rw [List.mem_map] at hp
      obtain ⟨d', _, rfl⟩ := hp
      rfl

/-- C9 witness: the fit at boundary 400 of a concrete run trained on dates 0
and 400, which satisfy the gate for one minimum training year; and on a run
whose boundary 300 fails the gate (earliest labelled date 0 is less than 365
days before it), the window date 400 keeps a missing probability. -/
theorem c9_min_history_gate_witness :
    (([0, 400] : List Int) ≠ [] ∧ listMin [0, 400] ≤ 400 - 1 * 36525 / 100) ∧
      has_min_history (trainFilter [0, 400] exY 300) 300 1 = false ∧
      ((400 : Int), (none : Option Int)).2 = none :=
  ⟨c9_min_history_gate.1 Int Int [0, 400, 800] (fun d => d) exY 1 [400, 800] exFit
      ([(0, none), (400, none), (800, some 1)], [(400, [0, 400])]) 400 [0, 400]
      (by decide) (by decide),
    by decide,
    c9_min_history_gate.2 Int Int [0, 400] (fun d => d) exY 1 exFit [] [400] 300 400
      ([(0, none), (400, none)], []) (by decide) (by decide) (by decide) (by decide)
      (by decide) (400, none) (by decide) rfl⟩

/-- C7 witness: with candidates ["BAD", "GOOD"] where "BAD" raises and "GOOD"
loads a non-empty series, the resolver returns GOOD's series and the attempt
trace is exactly ["BAD", "GOOD"]. -/
theorem c7_fallback_first_success_witness :
    candidateFails exLoader "BAD" = true ∧
      exLoader "GOOD" = .ok [(0, some 1)] ∧
      tryLoadCandidates exLoader ["BAD", "GOOD"] true =
        .ok (some [(0, some 1)], ["BAD", "GOOD"]) :=
  ⟨by decide, by decide,
    c7_fallback_first_success exLoader ["BAD"] [] "GOOD" [(0, some 1)] true
      (by decide) (by decide) (by decide)⟩

end TrendAnalyzer
